import Mathlib

/-!
A verification development for the vdl watch/download orchestration daemon
(src/main.rs). The registry (`InnerSub`), its reap/dispatch/boot-recovery
passes (`Subscriber::spawn`), the Id codec, the download task (`Viewer::dl`)
and the IPC serve loop (`Ipc::spawn`) are embedded shallowly: external
effects (subprocess results, filesystem answers, thread-handle states) are
supplied as explicit oracle arguments, and critical-section structure is
recorded as an event trace annotated with lock state.
-/

namespace Vdl


/-! ### Data model and operations, translated from src/main.rs -/

inductive Id where
  | yt (yt_id : String)
  | twitch (twitch_id : String)
deriving DecidableEq, Repr

def Id.format : Id → String
  | .yt k => "yt:" ++ k
  | .twitch k => "twitch:" ++ k

def Id.fromStr (s : String) : Option Id :=
  if List.isPrefixOf "yt:".data s.data then some (.yt (String.mk (s.data.drop 3)))
  else if List.isPrefixOf "twitch:".data s.data then
    some (.twitch (String.mk (s.data.drop 7)))
  else none

structure TaskHandle where
  finished : Bool
  ok : Bool
deriving DecidableEq, Repr

structure YtLiveInfo where
  id : String
  title : String
  is_live : Bool
  was_live : Bool
  webpage_url : String
  uploader : String

structure InnerSub where
  ids : List Id
  watching : List (Id × TaskHandle)
  downloaded : List Id
deriving DecidableEq, Repr

def keysW (w : List (Id × TaskHandle)) : List Id := w.map Prod.fst

def insertW (k : Id) (v : TaskHandle) (w : List (Id × TaskHandle)) :
    List (Id × TaskHandle) :=
  (k, v) :: w.filter (fun p => p.1 ≠ k)

def eraseW (k : Id) (w : List (Id × TaskHandle)) : List (Id × TaskHandle) :=
  w.filter (fun p => p.1 ≠ k)

def lookupW (k : Id) : List (Id × TaskHandle) → Option TaskHandle
  | [] => none
  | p :: rest => if p.1 = k then some p.2 else lookupW k rest

def insertS (i : Id) (d : List Id) : List Id := if i ∈ d then d else i :: d

inductive Event where
  | lock
  | unlock
  | probeYt (channel : String)
  | probeTwitch (channel : String)
  | spawnTask (id : Id)
  | sleep
deriving DecidableEq, Repr

def Event.isProbe : Event → Bool
  | .probeYt _ => true
  | .probeTwitch _ => true
  | _ => false

def WF (s : InnerSub) : Prop :=
  (keysW s.watching).Nodup ∧ ∀ i ∈ keysW s.watching, i ∉ s.downloaded

instance (s : InnerSub) : Decidable (WF s) := by
  unfold WF
  infer_instance

def reapOne (acc : InnerSub × List (Id × Bool)) (r : Id) :
    InnerSub × List (Id × Bool) :=
  match lookupW r acc.1.watching with
  | some h =>
    ({ acc.1 with
        watching := eraseW r acc.1.watching,
        downloaded := insertS r acc.1.downloaded },
     acc.2 ++ [(r, h.ok)])
  | none => acc

def reap (s : InnerSub) : InnerSub × List (Id × Bool) :=
  let remove := (s.watching.filter (fun p => p.2.finished)).map Prod.fst
  remove.foldl reapOne (s, [])

def dispatchOne (probe : String → Option YtLiveInfo) (twitchLive : String → Bool)
    (sp : Id → TaskHandle) (s : InnerSub) (i : Id) : InnerSub × List Event :=
  match i with
  | .yt yt_id =>
    match probe yt_id with
    | none => (s, [.probeYt yt_id])
    | some info =>
      let video_id := Id.yt info.id
      if info.is_live = true ∧ video_id ∉ keysW s.watching ∧
          video_id ∉ s.downloaded then
        ({ s with watching := insertW video_id (sp video_id) s.watching },
         [.probeYt yt_id, .spawnTask video_id])
      else (s, [.probeYt yt_id])
  | .twitch twitch_id =>
    if twitchLive twitch_id = true ∧ i ∉ keysW s.watching ∧ i ∉ s.downloaded then
      ({ s with watching := insertW i (sp i) s.watching },
       [.probeTwitch twitch_id, .spawnTask i])
    else (s, [.probeTwitch twitch_id])

def dispatchA (probe : String → Option YtLiveInfo) (twitchLive : String → Bool)
    (sp : Id → TaskHandle) (acc : InnerSub × List Event) (i : Id) :
    InnerSub × List Event :=
  let r := dispatchOne probe twitchLive sp acc.1 i
  (r.1, acc.2 ++ r.2)

def dispatch (probe : String → Option YtLiveInfo) (twitchLive : String → Bool)
    (sp : Id → TaskHandle) (s : InnerSub) : InnerSub × List Event :=
  s.ids.foldl (dispatchA probe twitchLive sp) (s, [])

def bootStep (sp : Id → TaskHandle) (acc : InnerSub × List Event)
    (entry : String) : InnerSub × List Event :=
  match Id.fromStr entry with
  | none => acc
  | some id =>
    ({ acc.1 with watching := insertW id (sp id) acc.1.watching },
     acc.2 ++ [.spawnTask id])

def boot (ids0 : List Id) (sp : Id → TaskHandle) (entries : List String) :
    InnerSub × List Event :=
  entries.foldl (bootStep sp) (⟨ids0, [], []⟩, [])

def cycle (probe : String → Option YtLiveInfo) (twitchLive : String → Bool)
    (sp : Id → TaskHandle) (s : InnerSub) :
    InnerSub × List (Id × Bool) × List Event :=
  let r := reap s
  let d := dispatch probe twitchLive sp r.1
  (d.1, r.2, [Event.lock] ++ d.2 ++ [Event.unlock] ++ List.replicate 450 Event.sleep)

def lockFlags : Bool → List Event → List (Event × Bool)
  | _, [] => []
  | _, Event.lock :: rest => (Event.lock, true) :: lockFlags true rest
  | _, Event.unlock :: rest => (Event.unlock, false) :: lockFlags false rest
  | held, e :: rest => (e, held) :: lockFlags held rest

inductive Reachable : InnerSub → Prop
  | boot (ids0 : List Id) (sp : Id → TaskHandle) (entries : List String) :
      Reachable (boot ids0 sp entries).1
  | reap {s : InnerSub} : Reachable s → Reachable (reap s).1
  | dispatch {s : InnerSub} (probe : String → Option YtLiveInfo)
      (twitchLive : String → Bool) (sp : Id → TaskHandle) :
      Reachable s → Reachable (dispatch probe twitchLive sp s).1
  | reload {s : InnerSub} (ids1 : List Id) :
      Reachable s → Reachable { s with ids := ids1 }

inductive Step : InnerSub → InnerSub → Prop
  | reap (s : InnerSub) : Step s (reap s).1
  | dispatch (s : InnerSub) (probe : String → Option YtLiveInfo)
      (twitchLive : String → Bool) (sp : Id → TaskHandle) :
      Step s (dispatch probe twitchLive sp s).1
  | reload (s : InnerSub) (ids1 : List Id) : Step s { s with ids := ids1 }

inductive Steps : InnerSub → InnerSub → Prop
  | refl (s : InnerSub) : Steps s s
  | tail {s t u : InnerSub} : Steps s t → Step t u → Steps s u

structure Viewer where
  live_from_start : Bool
  embed_metadata : Bool
  embed_thumbnail : Bool
  no_progress : Bool
  concurrent_fragments : Option Nat
  playlist_items : Option Nat
  remux_video : Option String
  cookies_from_browser : Option String

def Viewer.default : Viewer :=
  { live_from_start := false
    embed_metadata := true
    embed_thumbnail := true
    no_progress := true
    concurrent_fragments := none
    cookies_from_browser := none
    remux_video := none
    playlist_items := none }

def Viewer.args (v : Viewer) : List String :=
  (if v.live_from_start then ["--live-from-start"] else []) ++
  (if v.embed_metadata then ["--embed-metadata"] else []) ++
  (if v.embed_thumbnail then ["--embed-thumbnail"] else []) ++
  (if v.no_progress then ["--no-progress"] else []) ++
  (match v.concurrent_fragments with
    | some n => ["--concurrent-fragments", toString n]
    | none => []) ++
  (match v.playlist_items with
    | some n => ["--playlist-items", toString n]
    | none => []) ++
  (match v.cookies_from_browser with
    | some browser => ["--cookies-from-browser", browser]
    | none => []) ++
  (match v.remux_video with
    | some format => ["--remux-video", format]
    | none => [])

def strTrim (s : String) : String :=
  String.mk (((s.data.dropWhile Char.isWhitespace).reverse.dropWhile
    Char.isWhitespace).reverse)

def setExtension (name ext : String) : String :=
  let cs := name.data
  let stem :=
    match cs.reverse.findIdx? (fun c => c = '.') with
    | some i => if i + 1 < cs.length then (cs.reverse.drop (i + 1)).reverse else cs
    | none => cs
  if ext.isEmpty then String.mk stem else String.mk (stem ++ '.' :: ext.data)

inductive CmdOut where
  | launchErr
  | invalidUtf8
  | out (stdout : String)
deriving DecidableEq, Repr

inductive DlEvent where
  | invokeResolve
  | invokeDownload
deriving DecidableEq, Repr

structure DlEnv where
  currentDirOk : Bool
  resolve : CmdOut
  finalExists : Except String Bool
  stagingExists : Bool
  renameStagingOk : Bool
  removeStagingOk : Bool
  dlDirExists : Bool
  removePreOk : Bool
  createDirOk : Bool
  downloadLaunchOk : Bool
  renameAfterOk : Bool
  removeAfterOk : Bool

def Viewer.dl (v : Viewer) (env : DlEnv) : Except String Unit × List DlEvent :=
  if env.currentDirOk = false then (.error "current_dir", [])
  else
    let evs := [DlEvent.invokeResolve]
    match env.resolve with
    | .launchErr => (.ok (), evs)
    | .invalidUtf8 => (.error "invalid utf-8 sequence", evs)
    | .out raw =>
      let stdout := strTrim raw
      if stdout = "" then (.error "Filename is empty!", evs)
      else
        let output_filename :=
          match v.remux_video with
          | some format => setExtension stdout format
          | none => stdout
        match env.finalExists with
        | .error e => (.error e, evs)
        | .ok true => (.ok (), evs)
        | .ok false =>
          if env.stagingExists = true then
            if env.renameStagingOk = false then
              (.error ("rename to " ++ output_filename), evs)
            else if env.removeStagingOk = false then (.error "remove_dir_all", evs)
            else (.ok (), evs)
          else
            if env.dlDirExists = true ∧ env.removePreOk = false then
              (.error "remove_dir_all", evs)
            else if env.createDirOk = false then (.error "create_dir_all", evs)
            else
              let evs2 := evs ++ [DlEvent.invokeDownload]
              if env.downloadLaunchOk = false then (.error "status", evs2)
              else if env.renameAfterOk = false then
                (.error ("rename to " ++ output_filename), evs2)
              else if env.removeAfterOk = false then (.error "remove_dir_all", evs2)
              else (.ok (), evs2)

inductive IpcRequest where
  | getWatching
deriving DecidableEq, Repr

inductive IpcResponse where
  | watching (ids : List Id)
  | error (msg : String)
deriving DecidableEq, Repr

def handle_request (inner : InnerSub) : IpcRequest → IpcResponse
  | .getWatching => .watching (keysW inner.watching)

inductive IpcErr where
  | accept
  | read
  | write
deriving DecidableEq, Repr

structure Conn where
  acceptOk : Bool
  readOk : Bool
  request : Option IpcRequest
  writeOk : Bool

def ipcSpawn (inner : InnerSub) : List Conn → List IpcResponse × Option IpcErr
  | [] => ([], none)
  | c :: rest =>
    if c.acceptOk = false then ([], some .accept)
    else if c.readOk = false then ([], some .read)
    else
      let response :=
        match c.request with
        | some req => handle_request inner req
        | none => IpcResponse.error "Error: failed to parse JSON request"
      if c.writeOk = false then ([], some .write)
      else
        let r := ipcSpawn inner rest
        (response :: r.1, r.2)

def superviseTick (subscriberFinished exitSignal : Bool) : Option Nat :=
  if subscriberFinished = true then some 1
  else if exitSignal = true then some 1
  else none

def isErr (r : Except String Unit) : Bool :=
  match r with
  | .error _ => true
  | .ok _ => false

/-! ### Lemmas and claim theorems -/

theorem isPrefixOf_append_drop :
    ∀ (p s : List Char), List.isPrefixOf p s = true → p ++ s.drop p.length = s
  | [], _, _ => rfl
  | _ :: _, [], h => by simp [List.isPrefixOf] at h
  | a :: p, b :: s, h => by
    simp only [List.isPrefixOf, Bool.and_eq_true, beq_iff_eq] at h
    simp only [List.length_cons, List.drop_succ_cons, List.cons_append, h.1,
      isPrefixOf_append_drop p s h.2]

/-- Claim C6: for every Id (YouTube or Twitch, any key string), parsing its
canonical string encoding returns the original Id. -/
theorem c6_round_trip (id : Id) : Id.fromStr (Id.format id) = some id := by
  cases id with
  | yt k =>
    show Id.fromStr ("yt:" ++ k) = some (.yt k)
    have hd : ("yt:" ++ k).data = 'y' :: 't' :: ':' :: k.data := rfl
    simp [Id.fromStr, hd, List.isPrefixOf]
  | twitch k =>
    show Id.fromStr ("twitch:" ++ k) = some (.twitch k)
    have hd : ("twitch:" ++ k).data = 't' :: 'w' :: 'i' :: 't' :: 'c' :: 'h' :: ':' :: k.data := rfl
    simp [Id.fromStr, hd, List.isPrefixOf]

theorem fromStr_yt {a k : String} (ha : Id.fromStr a = some (.yt k)) :
    a = "yt:" ++ k := by
  unfold Id.fromStr at ha
  split at ha
  case isTrue h =>
    have h2 := isPrefixOf_append_drop "yt:".data a.data h
    have hk : k = String.mk (a.data.drop 3) := by
      have := Option.some.inj ha
      cases this
      rfl
    subst hk
    apply String.ext
    show a.data = "yt:".data ++ a.data.drop 3
    exact h2.symm
  case isFalse h =>
    split at ha <;> simp at ha

theorem fromStr_twitch {a k : String} (ha : Id.fromStr a = some (.twitch k)) :
    a = "twitch:" ++ k := by
  unfold Id.fromStr at ha
  split at ha
  case isTrue h => simp at ha
  case isFalse h =>
    split at ha
    case isTrue h2 =>
      have h3 := isPrefixOf_append_drop "twitch:".data a.data h2
      have hk : k = String.mk (a.data.drop 7) := by
        have := Option.some.inj ha
        cases this
        rfl
      subst hk
      apply String.ext
      show a.data = "twitch:".data ++ a.data.drop 7
      exact h3.symm
    case isFalse => simp at ha

theorem fromStr_inj {a b : String} {i : Id}
    (ha : Id.fromStr a = some i) (hb : Id.fromStr b = some i) : a = b := by
  cases i with
  | yt k => rw [fromStr_yt ha, fromStr_yt hb]
  | twitch k => rw [fromStr_twitch ha, fromStr_twitch hb]

theorem mem_keysW_insertW {i k : Id} {v : TaskHandle} {w : List (Id × TaskHandle)} :
    i ∈ keysW (insertW k v w) ↔ i = k ∨ (i ∈ keysW w ∧ i ≠ k) := by
  simp only [keysW, insertW, List.map_cons, List.mem_cons, List.mem_map,
    List.mem_filter]
  constructor
  · rintro (h | ⟨p, ⟨hp, hne⟩, rfl⟩)
    · exact Or.inl h
    · exact Or.inr ⟨⟨p, hp, rfl⟩, by simpa using hne⟩
  · rintro (h | ⟨⟨p, hp, rfl⟩, hne⟩)
    · exact Or.inl h
    · exact Or.inr ⟨p, ⟨hp, by simpa using hne⟩, rfl⟩

theorem mem_keysW_eraseW {i k : Id} {w : List (Id × TaskHandle)} :
    i ∈ keysW (eraseW k w) ↔ i ∈ keysW w ∧ i ≠ k := by
  simp only [keysW, eraseW, List.mem_map, List.mem_filter]
  constructor
  · rintro ⟨p, ⟨hp, hne⟩, rfl⟩
    exact ⟨⟨p, hp, rfl⟩, by simpa using hne⟩
  · rintro ⟨⟨p, hp, rfl⟩, hne⟩
    exact ⟨p, ⟨hp, by simpa using hne⟩, rfl⟩

theorem nodup_keysW_insertW {k : Id} {v : TaskHandle} {w : List (Id × TaskHandle)}
    (h : (keysW w).Nodup) : (keysW (insertW k v w)).Nodup := by
  simp only [keysW, insertW, List.map_cons, List.nodup_cons]
  constructor
  · intro hmem
    rcases List.mem_map.1 hmem with ⟨q, hq, he⟩
    have hne : q.1 ≠ k := by simpa using (List.mem_filter.1 hq).2
    exact hne he
  · have : (w.filter (fun p => p.1 ≠ k)).Sublist w := List.filter_sublist w
    exact ((this.map Prod.fst).nodup h)

theorem nodup_keysW_eraseW {k : Id} {w : List (Id × TaskHandle)}
    (h : (keysW w).Nodup) : (keysW (eraseW k w)).Nodup :=
  ((List.filter_sublist w).map Prod.fst).nodup h

theorem mem_insertS {j i : Id} {d : List Id} : j ∈ insertS i d ↔ j = i ∨ j ∈ d := by
  unfold insertS
  split
  · constructor
    · exact Or.inr
    · rintro (rfl | h) <;> [assumption; assumption]
  · simp [List.mem_cons]

theorem lookupW_eq_of_mem {i : Id} {h : TaskHandle} {w : List (Id × TaskHandle)}
    (hmem : (i, h) ∈ w) (hnd : (keysW w).Nodup) : lookupW i w = some h := by
  induction w with
  | nil => cases hmem
  | cons p rest ih =>
    simp only [keysW, List.map_cons, List.nodup_cons] at hnd
    rcases List.mem_cons.1 hmem with rfl | hmem2
    · simp [lookupW]
    · have hne : p.1 ≠ i := by
        intro he
        exact hnd.1 (he ▸ List.mem_map.2 ⟨(i, h), hmem2, rfl⟩)
      simp only [lookupW, if_neg hne]
      exact ih hmem2 hnd.2

theorem lookupW_mem {i : Id} {h : TaskHandle} {w : List (Id × TaskHandle)}
    (hl : lookupW i w = some h) : (i, h) ∈ w := by
  induction w with
  | nil => cases hl
  | cons p rest ih =>
    by_cases he : p.1 = i
    · simp only [lookupW, if_pos he] at hl
      cases hl
      subst he
      exact List.mem_cons_self _ _
    · simp only [lookupW, if_neg he] at hl
      exact List.mem_cons_of_mem _ (ih hl)

theorem insertW_fresh {k : Id} {v : TaskHandle} {w : List (Id × TaskHandle)}
    (h : k ∉ keysW w) : insertW k v w = (k, v) :: w := by
  unfold insertW
  congr 1
  apply List.filter_eq_self.2
  intro p hp
  simp only [ne_eq, decide_not, Bool.not_eq_eq_eq_not, Bool.not_true,
    decide_eq_false_iff_not]
  intro he
  exact h (he ▸ List.mem_map.2 ⟨p, hp, rfl⟩)

theorem lookupW_eraseW_ne {i k : Id} {w : List (Id × TaskHandle)} (h : i ≠ k) :
    lookupW i (eraseW k w) = lookupW i w := by
  induction w with
  | nil => rfl
  | cons p rest ih =>
    by_cases he : p.1 = k
    · have : lookupW i (p :: rest) = lookupW i rest := by
        simp only [lookupW]
        rw [if_neg]
        intro hc
        exact h (hc ▸ he.symm ▸ rfl)
      rw [this, ← ih]
      unfold eraseW
      rw [List.filter_cons_of_neg (by simpa using he)]
    · unfold eraseW
      rw [List.filter_cons_of_pos (by simpa using he)]
      by_cases hi : p.1 = i
      · simp [lookupW, hi]
      · simp only [lookupW, if_neg hi]
        exact ih

theorem wf_reapOne {acc : InnerSub × List (Id × Bool)} {r : Id}
    (h : WF acc.1) : WF (reapOne acc r).1 := by
  unfold reapOne
  cases hl : lookupW r acc.1.watching with
  | none => exact h
  | some th =>
    refine ⟨nodup_keysW_eraseW h.1, ?_⟩
    intro i hi
    rcases mem_keysW_eraseW.1 hi with ⟨hiw, hir⟩
    intro hd
    rcases mem_insertS.1 hd with rfl | hd2
    · exact hir rfl
    · exact h.2 i hiw hd2

theorem wf_reap_fold {l : List Id} :
    ∀ {acc : InnerSub × List (Id × Bool)}, WF acc.1 → WF (l.foldl reapOne acc).1 := by
  induction l with
  | nil => intro acc h; exact h
  | cons r rest ih => intro acc h; exact ih (wf_reapOne h)

theorem wf_reap {s : InnerSub} (h : WF s) : WF (reap s).1 :=
  wf_reap_fold h

theorem reap_downloaded_mono_one {acc : InnerSub × List (Id × Bool)} {r i : Id}
    (h : i ∈ acc.1.downloaded) : i ∈ (reapOne acc r).1.downloaded := by
  unfold reapOne
  cases lookupW r acc.1.watching with
  | none => exact h
  | some th => exact mem_insertS.2 (Or.inr h)

theorem reap_downloaded_mono_fold {l : List Id} :
    ∀ {acc : InnerSub × List (Id × Bool)} {i : Id},
      i ∈ acc.1.downloaded → i ∈ (l.foldl reapOne acc).1.downloaded := by
  induction l with
  | nil => intro _ _ h; exact h
  | cons r rest ih => intro acc i h; exact ih (reap_downloaded_mono_one h)

theorem reap_downloaded_mono {s : InnerSub} {i : Id} (h : i ∈ s.downloaded) :
    i ∈ (reap s).1.downloaded :=
  reap_downloaded_mono_fold h

theorem reap_watching_subset_one {acc : InnerSub × List (Id × Bool)} {r i : Id}
    (h : i ∈ keysW (reapOne acc r).1.watching) : i ∈ keysW acc.1.watching := by
  unfold reapOne at h
  cases hl : lookupW r acc.1.watching with
  | none => rw [hl] at h; exact h
  | some th =>
    rw [hl] at h
    exact (mem_keysW_eraseW.1 h).1

theorem reap_watching_subset_fold {l : List Id} :
    ∀ {acc : InnerSub × List (Id × Bool)} {i : Id},
      i ∈ keysW (l.foldl reapOne acc).1.watching → i ∈ keysW acc.1.watching := by
  induction l with
  | nil => intro _ _ h; exact h
  | cons r rest ih => intro acc i h; exact reap_watching_subset_one (ih h)

theorem reap_lookup_fold {l : List Id} :
    ∀ {acc : InnerSub × List (Id × Bool)} {i : Id}, i ∉ l →
      lookupW i (l.foldl reapOne acc).1.watching = lookupW i acc.1.watching := by
  induction l with
  | nil => intro _ _ _; rfl
  | cons r rest ih =>
    intro acc i h
    have hir : i ≠ r := fun he => h (he ▸ List.mem_cons_self r rest)
    have hrest : i ∉ rest := fun hm => h (List.mem_cons_of_mem r hm)
    rw [List.foldl_cons, ih hrest]
    unfold reapOne
    cases lookupW r acc.1.watching with
    | none => rfl
    | some th => exact lookupW_eraseW_ne hir

theorem reap_reports_fold {l : List Id} :
    ∀ {acc : InnerSub × List (Id × Bool)} {i : Id}, i ∉ l →
      ((l.foldl reapOne acc).2).filter (fun p => p.1 = i) =
        acc.2.filter (fun p => p.1 = i) := by
  induction l with
  | nil => intro _ _ _; rfl
  | cons r rest ih =>
    intro acc i h
    have hir : i ≠ r := fun he => h (he ▸ List.mem_cons_self r rest)
    have hrest : i ∉ rest := fun hm => h (List.mem_cons_of_mem r hm)
    rw [List.foldl_cons, ih hrest]
    unfold reapOne
    cases lookupW r acc.1.watching with
    | none => rfl
    | some th =>
      simp only [List.filter_append, List.filter_cons, List.filter_nil]
      rw [if_neg (by simpa using fun he => hir he.symm)]
      simp

theorem reapOne_some {acc : InnerSub × List (Id × Bool)} {r : Id} {h : TaskHandle}
    (hl : lookupW r acc.1.watching = some h) :
    reapOne acc r = ({ acc.1 with
        watching := eraseW r acc.1.watching,
        downloaded := insertS r acc.1.downloaded },
      acc.2 ++ [(r, h.ok)]) := by
  unfold reapOne
  rw [hl]

theorem reap_finished_spec {s : InnerSub} {i : Id} {h : TaskHandle}
    (hwf : WF s) (hmem : (i, h) ∈ s.watching) (hfin : h.finished = true) :
    i ∉ keysW (reap s).1.watching ∧ i ∈ (reap s).1.downloaded ∧
      (reap s).2.filter (fun p => p.1 = i) = [(i, h.ok)] := by
  have hnd : (keysW s.watching).Nodup := hwf.1
  have hfmem : (i, h) ∈ s.watching.filter (fun p => p.2.finished) :=
    List.mem_filter.2 ⟨hmem, by simpa using hfin⟩
  have himem : i ∈ (s.watching.filter (fun p => p.2.finished)).map Prod.fst :=
    List.mem_map.2 ⟨(i, h), hfmem, rfl⟩
  have hremnd : ((s.watching.filter (fun p => p.2.finished)).map Prod.fst).Nodup :=
    ((List.filter_sublist s.watching).map Prod.fst).nodup hnd
  obtain ⟨l1, l2, hsplit⟩ := List.append_of_mem himem
  rw [hsplit] at hremnd
  have hnl1 : i ∉ l1 := by
    rcases List.nodup_append.1 hremnd with ⟨-, -, hdisj⟩
    intro hc
    exact hdisj hc (List.mem_cons_self i l2)
  have hnl2 : i ∉ l2 := by
    rcases List.nodup_append.1 hremnd with ⟨-, hnd2, -⟩
    exact (List.nodup_cons.1 hnd2).1
  have hreap : reap s = l2.foldl reapOne (reapOne (l1.foldl reapOne (s, []) ) i) := by
    unfold reap
    rw [hsplit, List.foldl_append, List.foldl_cons]
  have hlook : lookupW i (l1.foldl reapOne (s, [])).1.watching = some h := by
    rw [reap_lookup_fold hnl1]
    exact lookupW_eq_of_mem hmem hnd
  have hstep := reapOne_some hlook
  refine ⟨?_, ?_, ?_⟩
  · intro hc
    rw [hreap, hstep] at hc
    have := reap_watching_subset_fold hc
    exact (mem_keysW_eraseW.1 this).2 rfl
  · rw [hreap, hstep]
    exact reap_downloaded_mono_fold (mem_insertS.2 (Or.inl rfl))
  · rw [hreap, hstep, reap_reports_fold hnl2]
    have hempty : ((l1.foldl reapOne (s, ([] : List (Id × Bool)))).2).filter
        (fun p => p.1 = i) = [] := by
      rw [reap_reports_fold hnl1]
      rfl
    simp only [List.filter_append, hempty, List.nil_append, List.filter_cons,
      List.filter_nil]
    rw [if_pos (by simp)]

theorem dispatchOne_downloaded (probe : String → Option YtLiveInfo)
    (twitchLive : String → Bool) (sp : Id → TaskHandle) (s : InnerSub) (i : Id) :
    (dispatchOne probe twitchLive sp s i).1.downloaded = s.downloaded := by
  cases i with
  | yt k =>
    unfold dispatchOne
    dsimp only
    cases probe k with
    | none => rfl
    | some info =>
      dsimp only
      split <;> rfl
  | twitch k =>
    unfold dispatchOne
    dsimp only
    split <;> rfl

theorem dispatchOne_ids (probe : String → Option YtLiveInfo)
    (twitchLive : String → Bool) (sp : Id → TaskHandle) (s : InnerSub) (i : Id) :
    (dispatchOne probe twitchLive sp s i).1.ids = s.ids := by
  cases i with
  | yt k =>
    unfold dispatchOne
    dsimp only
    cases probe k with
    | none => rfl
    | some info =>
      dsimp only
      split <;> rfl
  | twitch k =>
    unfold dispatchOne
    dsimp only
    split <;> rfl

theorem wf_dispatchOne {probe : String → Option YtLiveInfo}
    {twitchLive : String → Bool} {sp : Id → TaskHandle} {s : InnerSub} {i : Id}
    (h : WF s) : WF (dispatchOne probe twitchLive sp s i).1 := by
  cases i with
  | yt k =>
    unfold dispatchOne
    dsimp only
    cases probe k with
    | none => exact h
    | some info =>
      dsimp only
      split
      case isTrue hg =>
        refine ⟨nodup_keysW_insertW h.1, ?_⟩
        intro j hj
        rcases mem_keysW_insertW.1 hj with rfl | ⟨hjw, -⟩
        · exact hg.2.2
        · exact h.2 j hjw
      case isFalse => exact h
  | twitch k =>
    unfold dispatchOne
    dsimp only
    split
    case isTrue hg =>
      refine ⟨nodup_keysW_insertW h.1, ?_⟩
      intro j hj
      rcases mem_keysW_insertW.1 hj with rfl | ⟨hjw, -⟩
      · exact hg.2.2
      · exact h.2 j hjw
    case isFalse => exact h

theorem dispatch_fold_downloaded (probe : String → Option YtLiveInfo)
    (twitchLive : String → Bool) (sp : Id → TaskHandle) (l : List Id) :
    ∀ (acc : InnerSub × List Event),
      (l.foldl (dispatchA probe twitchLive sp) acc).1.downloaded =
        acc.1.downloaded := by
  induction l with
  | nil => intro _; rfl
  | cons j rest ih =>
    intro acc
    rw [List.foldl_cons, ih]
    exact dispatchOne_downloaded probe twitchLive sp acc.1 j

theorem dispatch_downloaded (probe : String → Option YtLiveInfo)
    (twitchLive : String → Bool) (sp : Id → TaskHandle) (s : InnerSub) :
    (dispatch probe twitchLive sp s).1.downloaded = s.downloaded :=
  dispatch_fold_downloaded probe twitchLive sp s.ids (s, [])

theorem wf_dispatch_fold {probe : String → Option YtLiveInfo}
    {twitchLive : String → Bool} {sp : Id → TaskHandle} {l : List Id} :
    ∀ {acc : InnerSub × List Event}, WF acc.1 →
      WF (l.foldl (dispatchA probe twitchLive sp) acc).1 := by
  induction l with
  | nil => intro _ h; exact h
  | cons j rest ih => intro acc h; exact ih (wf_dispatchOne h)

theorem wf_dispatch {probe : String → Option YtLiveInfo}
    {twitchLive : String → Bool} {sp : Id → TaskHandle} {s : InnerSub}
    (h : WF s) : WF (dispatch probe twitchLive sp s).1 :=
  wf_dispatch_fold h

theorem boot_fold_downloaded (sp : Id → TaskHandle) (entries : List String) :
    ∀ (acc : InnerSub × List Event),
      (entries.foldl (bootStep sp) acc).1.downloaded = acc.1.downloaded := by
  induction entries with
  | nil => intro _; rfl
  | cons e rest ih =>
    intro acc
    rw [List.foldl_cons, ih]
    unfold bootStep
    cases Id.fromStr e <;> rfl

theorem wf_boot_fold {sp : Id → TaskHandle} {entries : List String} :
    ∀ {acc : InnerSub × List Event}, WF acc.1 → acc.1.downloaded = [] →
      WF (entries.foldl (bootStep sp) acc).1 := by
  induction entries with
  | nil => intro _ h _; exact h
  | cons e rest ih =>
    intro acc h hd
    rw [List.foldl_cons]
    have hd2 : (bootStep sp acc e).1.downloaded = [] := by
      unfold bootStep
      cases Id.fromStr e <;> simpa using hd
    refine ih ?_ hd2
    unfold bootStep
    cases Id.fromStr e with
    | none => exact h
    | some id =>
      refine ⟨nodup_keysW_insertW h.1, ?_⟩
      intro j hj
      simp [hd]

theorem wf_boot (ids0 : List Id) (sp : Id → TaskHandle) (entries : List String) :
    WF (boot ids0 sp entries).1 :=
  wf_boot_fold ⟨List.nodup_nil, by intro i h; cases h⟩ rfl

theorem wf_reachable {s : InnerSub} (h : Reachable s) : WF s := by
  induction h with
  | boot ids0 sp entries => exact wf_boot ids0 sp entries
  | reap _ ih => exact wf_reap ih
  | dispatch probe twitchLive sp _ ih => exact wf_dispatch ih
  | reload ids1 _ ih => exact ih

theorem reachable_step {s t : InnerSub} (hr : Reachable s) (hs : Step s t) :
    Reachable t := by
  cases hs with
  | reap => exact Reachable.reap hr
  | dispatch probe twitchLive sp => exact Reachable.dispatch probe twitchLive sp hr
  | reload ids1 => exact Reachable.reload ids1 hr

theorem step_downloaded_mono {s t : InnerSub} {i : Id} (hd : i ∈ s.downloaded)
    (hs : Step s t) : i ∈ t.downloaded := by
  cases hs with
  | reap => exact reap_downloaded_mono hd
  | dispatch probe twitchLive sp =>
    rw [dispatch_downloaded]
    exact hd
  | reload ids1 => exact hd

theorem steps_reachable_downloaded {s t : InnerSub} {i : Id} (hr : Reachable s)
    (hd : i ∈ s.downloaded) (hs : Steps s t) :
    Reachable t ∧ i ∈ t.downloaded := by
  induction hs with
  | refl => exact ⟨hr, hd⟩
  | tail _ hstep ih => exact ⟨reachable_step ih.1 hstep, step_downloaded_mono ih.2 hstep⟩

theorem boot_fold_keys {sp : Id → TaskHandle} :
    ∀ (entries : List String) (acc : InnerSub × List Event),
      entries.Nodup →
      (∀ e ∈ entries, ∀ i, Id.fromStr e = some i → i ∉ keysW acc.1.watching) →
      keysW (entries.foldl (bootStep sp) acc).1.watching =
        (entries.filterMap Id.fromStr).reverse ++ keysW acc.1.watching := by
  intro entries
  induction entries with
  | nil => intro acc _ _; simp
  | cons e rest ih =>
    intro acc hnd hfresh
    rw [List.foldl_cons]
    cases hfe : Id.fromStr e with
    | none =>
      have hstep : bootStep sp acc e = acc := by
        unfold bootStep
        rw [hfe]
      rw [hstep, ih acc (List.nodup_cons.1 hnd).2
        (fun e' he' => hfresh e' (List.mem_cons_of_mem e he')),
        List.filterMap_cons_none hfe]
    | some id =>
      have hidf : id ∉ keysW acc.1.watching :=
        hfresh e (List.mem_cons_self e rest) id hfe
      have hstep : bootStep sp acc e =
          ({ acc.1 with watching := (id, sp id) :: acc.1.watching },
            acc.2 ++ [Event.spawnTask id]) := by
        unfold bootStep
        rw [hfe]
        dsimp only
        rw [insertW_fresh hidf]
      rw [hstep]
      have hkeys : keysW ((id, sp id) :: acc.1.watching) = id :: keysW acc.1.watching := rfl
      have hfresh2 : ∀ e' ∈ rest, ∀ i, Id.fromStr e' = some i →
          i ∉ keysW ({ acc.1 with watching := (id, sp id) :: acc.1.watching },
            acc.2 ++ [Event.spawnTask id]).1.watching := by
        intro e' he' i hfe'
        rw [hkeys]
        intro hmem
        rcases List.mem_cons.1 hmem with rfl | hmem2
        · have : e' = e := fromStr_inj hfe' hfe
          exact (List.nodup_cons.1 hnd).1 (this ▸ he')
        · exact hfresh e' (List.mem_cons_of_mem e he') i hfe' hmem2
      rw [ih _ (List.nodup_cons.1 hnd).2 hfresh2, List.filterMap_cons_some hfe]
      simp [hkeys]

theorem boot_fold_events {sp : Id → TaskHandle} :
    ∀ (entries : List String) (acc : InnerSub × List Event),
      (∀ e ∈ acc.2, e.isProbe = false) →
      ∀ e ∈ (entries.foldl (bootStep sp) acc).2, e.isProbe = false := by
  intro entries
  induction entries with
  | nil => intro acc h; exact h
  | cons en rest ih =>
    intro acc h
    rw [List.foldl_cons]
    refine ih _ ?_
    unfold bootStep
    cases Id.fromStr en with
    | none => exact h
    | some id =>
      intro e he
      rcases List.mem_append.1 he with h1 | h2
      · exact h e h1
      · rcases List.mem_singleton.1 h2 with rfl
        rfl

theorem dispatchOne_events {probe : String → Option YtLiveInfo}
    {twitchLive : String → Bool} {sp : Id → TaskHandle} {s : InnerSub} {i : Id} :
    ∀ e ∈ (dispatchOne probe twitchLive sp s i).2,
      e ≠ Event.lock ∧ e ≠ Event.unlock ∧ e ≠ Event.sleep := by
  cases i with
  | yt k =>
    unfold dispatchOne
    dsimp only
    cases probe k with
    | none =>
      intro e he
      rcases List.mem_singleton.1 he with rfl
      exact ⟨by simp, by simp, by simp⟩
    | some info =>
      dsimp only
      split <;> intro e he
      · rcases List.mem_cons.1 he with rfl | he2
        · exact ⟨by simp, by simp, by simp⟩
        · rcases List.mem_singleton.1 he2 with rfl
          exact ⟨by simp, by simp, by simp⟩
      · rcases List.mem_singleton.1 he with rfl
        exact ⟨by simp, by simp, by simp⟩
  | twitch k =>
    unfold dispatchOne
    dsimp only
    split <;> intro e he
    · rcases List.mem_cons.1 he with rfl | he2
      · exact ⟨by simp, by simp, by simp⟩
      · rcases List.mem_singleton.1 he2 with rfl
        exact ⟨by simp, by simp, by simp⟩
    · rcases List.mem_singleton.1 he with rfl
      exact ⟨by simp, by simp, by simp⟩

theorem dispatch_fold_events {probe : String → Option YtLiveInfo}
    {twitchLive : String → Bool} {sp : Id → TaskHandle} {l : List Id} :
    ∀ {acc : InnerSub × List Event},
      (∀ e ∈ acc.2, e ≠ Event.lock ∧ e ≠ Event.unlock ∧ e ≠ Event.sleep) →
      ∀ e ∈ (l.foldl (dispatchA probe twitchLive sp) acc).2,
        e ≠ Event.lock ∧ e ≠ Event.unlock ∧ e ≠ Event.sleep := by
  induction l with
  | nil => intro acc h; exact h
  | cons j rest ih =>
    intro acc h
    rw [List.foldl_cons]
    refine ih ?_
    intro e he
    rcases List.mem_append.1 he with h1 | h2
    · exact h e h1
    · exact dispatchOne_events e h2

theorem dispatch_events {probe : String → Option YtLiveInfo}
    {twitchLive : String → Bool} {sp : Id → TaskHandle} {s : InnerSub} :
    ∀ e ∈ (dispatch probe twitchLive sp s).2,
      e ≠ Event.lock ∧ e ≠ Event.unlock ∧ e ≠ Event.sleep :=
  dispatch_fold_events (fun e he => absurd he (List.not_mem_nil e))

theorem lockFlags_cons_other {b : Bool} {e : Event} {l : List Event}
    (h1 : e ≠ Event.lock) (h2 : e ≠ Event.unlock) :
    lockFlags b (e :: l) = (e, b) :: lockFlags b l := by
  cases e with
  | lock => exact absurd rfl h1
  | unlock => exact absurd rfl h2
  | probeYt k => rfl
  | probeTwitch k => rfl
  | spawnTask i => rfl
  | sleep => rfl

theorem lockFlags_append_other {l : List Event}
    (h : ∀ e ∈ l, e ≠ Event.lock ∧ e ≠ Event.unlock) :
    ∀ (b : Bool) (r : List Event),
      lockFlags b (l ++ r) = l.map (fun e => (e, b)) ++ lockFlags b r := by
  induction l with
  | nil => intro b r; rfl
  | cons e rest ih =>
    intro b r
    have he := h e (List.mem_cons_self e rest)
    rw [List.cons_append, lockFlags_cons_other he.1 he.2, List.map_cons,
      List.cons_append, ih (fun e' he' => h e' (List.mem_cons_of_mem e he')) b r]

theorem lockFlags_replicate_sleep : ∀ (n : Nat) (b : Bool),
    lockFlags b (List.replicate n Event.sleep) = List.replicate n (Event.sleep, b) := by
  intro n
  induction n with
  | zero => intro b; rfl
  | succ m ih =>
    intro b
    rw [List.replicate_succ, List.replicate_succ, lockFlags_cons_other (by simp) (by simp), ih]

theorem cycle_events_shape (probe : String → Option YtLiveInfo)
    (twitchLive : String → Bool) (sp : Id → TaskHandle) (s : InnerSub) :
    (cycle probe twitchLive sp s).2.2 =
      Event.lock :: ((dispatch probe twitchLive sp (reap s).1).2 ++
        Event.unlock :: List.replicate 450 Event.sleep) := by
  unfold cycle
  dsimp only
  simp only [List.append_assoc, List.cons_append, List.nil_append,
    List.singleton_append]

theorem locked_probe_cycle (probe : String → Option YtLiveInfo)
    (twitchLive : String → Bool) (sp : Id → TaskHandle) (s : InnerSub) :
    ∀ p ∈ lockFlags false (cycle probe twitchLive sp s).2.2,
      (p.1.isProbe = true → p.2 = true) ∧ (p.1 = Event.sleep → p.2 = false) := by
  intro p hp
  rw [cycle_events_shape] at hp
  have hdev := @dispatch_events probe twitchLive sp (reap s).1
  have h1 : lockFlags false (Event.lock ::
      ((dispatch probe twitchLive sp (reap s).1).2 ++
        Event.unlock :: List.replicate 450 Event.sleep)) =
      (Event.lock, true) :: lockFlags true
        ((dispatch probe twitchLive sp (reap s).1).2 ++
          Event.unlock :: List.replicate 450 Event.sleep) := rfl
  have h2 : lockFlags true
      ((dispatch probe twitchLive sp (reap s).1).2 ++
        Event.unlock :: List.replicate 450 Event.sleep) =
      (dispatch probe twitchLive sp (reap s).1).2.map (fun e => (e, true)) ++
        lockFlags true (Event.unlock :: List.replicate 450 Event.sleep) :=
    lockFlags_append_other (fun e he => ⟨(hdev e he).1, (hdev e he).2.1⟩) true _
  have h3 : lockFlags true (Event.unlock :: List.replicate 450 Event.sleep) =
      (Event.unlock, false) :: List.replicate 450 (Event.sleep, false) := by
    show (Event.unlock, false) :: lockFlags false (List.replicate 450 Event.sleep) = _
    rw [lockFlags_replicate_sleep]
  rw [h1, h2, h3] at hp
  rcases List.mem_cons.1 hp with rfl | hp1
  · exact ⟨fun _ => rfl, fun h => nomatch h⟩
  rcases List.mem_append.1 hp1 with hmap | hp2
  · rcases List.mem_map.1 hmap with ⟨e, he, rfl⟩
    exact ⟨fun _ => rfl, fun hsleep => absurd hsleep (hdev e he).2.2⟩
  rcases List.mem_cons.1 hp2 with rfl | hp3
  · refine ⟨fun h => ?_, fun _ => rfl⟩
    simp [Event.isProbe] at h
  · have hps := List.eq_of_mem_replicate hp3
    subst hps
    refine ⟨fun h => ?_, fun _ => rfl⟩
    simp [Event.isProbe] at h

theorem ipcSpawn_bad {inner : InnerSub} {bad : Conn} (rest : List Conn)
    (hb : bad.acceptOk = false ∨ bad.readOk = false ∨ bad.writeOk = false) :
    ∃ er : IpcErr, ipcSpawn inner (bad :: rest) = ([], some er) ∧
      ipcSpawn inner [bad] = ([], some er) := by
  by_cases ha : bad.acceptOk = false
  · exact ⟨.accept, by simp [ipcSpawn, ha], by simp [ipcSpawn, ha]⟩
  · by_cases hr : bad.readOk = false
    · exact ⟨.read, by simp [ipcSpawn, ha, hr], by simp [ipcSpawn, ha, hr]⟩
    · have hw : bad.writeOk = false := by tauto
      exact ⟨.write, by simp [ipcSpawn, ha, hr, hw], by simp [ipcSpawn, ha, hr, hw]⟩

theorem ipcSpawn_halt {inner : InnerSub} :
    ∀ (good : List Conn) (bad : Conn) (rest : List Conn),
      (∀ c ∈ good, c.acceptOk = true ∧ c.readOk = true ∧ c.writeOk = true) →
      (bad.acceptOk = false ∨ bad.readOk = false ∨ bad.writeOk = false) →
      (ipcSpawn inner (good ++ bad :: rest)).1.length = good.length ∧
      (∃ er : IpcErr, (ipcSpawn inner (good ++ bad :: rest)).2 = some er) ∧
      ipcSpawn inner (good ++ bad :: rest) = ipcSpawn inner (good ++ [bad]) := by
  intro good
  induction good with
  | nil =>
    intro bad rest hg hb
    obtain ⟨er, h1, h2⟩ := ipcSpawn_bad rest hb
    rw [List.nil_append, List.nil_append, h1, h2]
    exact ⟨rfl, ⟨er, rfl⟩, rfl⟩
  | cons g good' ih =>
    intro bad rest hg hb
    have hgg := hg g (List.mem_cons_self g good')
    have hga : ¬(g.acceptOk = false) := by rw [hgg.1]; simp
    have hgr : ¬(g.readOk = false) := by rw [hgg.2.1]; simp
    have hgw : ¬(g.writeOk = false) := by rw [hgg.2.2]; simp
    have ih2 := ih bad rest (fun c hc => hg c (List.mem_cons_of_mem g hc)) hb
    have hred : ∀ tail, ipcSpawn inner (g :: tail) =
        ((match g.request with
          | some req => handle_request inner req
          | none => IpcResponse.error "Error: failed to parse JSON request") ::
            (ipcSpawn inner tail).1, (ipcSpawn inner tail).2) := by
      intro tail
      show (if g.acceptOk = false then _ else _) = _
      rw [if_neg hga, if_neg hgr, if_neg hgw]
    rw [List.cons_append, List.cons_append, hred, hred]
    obtain ⟨er, her⟩ := ih2.2.1
    refine ⟨?_, ⟨er, her⟩, ?_⟩
    · show (ipcSpawn inner (good' ++ bad :: rest)).1.length + 1 = good'.length + 1
      rw [ih2.1]
    · rw [ih2.2.2]

/-- Claim C1: at every reachable snapshot of the watch registry (produced by
boot recovery, a reap pass, a dispatch pass, or a config reload), the set of
active Ids (keys of `watching`) and the terminal set (`downloaded`) are
disjoint: no Id is in both at once. -/
theorem c1_active_terminal_disjoint {s : InnerSub} (hr : Reachable s) :
    ∀ i : Id, ¬(i ∈ keysW s.watching ∧ i ∈ s.downloaded) := by
  intro i hi
  exact (wf_reachable hr).2 i hi.1 hi.2

/-- Witness for C1 at the concrete boot state recovered from one staging
directory named "yt:a". -/
theorem c1_witness :
    ¬(Id.yt "a" ∈ keysW (boot [] (fun _ => (⟨false, false⟩ : TaskHandle))
        ["yt:a"]).1.watching ∧
      Id.yt "a" ∈ (boot [] (fun _ => (⟨false, false⟩ : TaskHandle))
        ["yt:a"]).1.downloaded) :=
  c1_active_terminal_disjoint (Reachable.boot _ _ _) (Id.yt "a")

/-- Claim C2: once an Id has entered the terminal set (`downloaded`) of a
reachable state, no later sequence of reap, dispatch, or reload passes within
the same process lifetime ever puts it back into `watching`; it stays
terminal forever. -/
theorem c2_terminal_never_reactivated {s s' : InnerSub} {i : Id}
    (hr : Reachable s) (hd : i ∈ s.downloaded) (hs : Steps s s') :
    i ∈ s'.downloaded ∧ i ∉ keysW s'.watching := by
  obtain ⟨hr', hd'⟩ := steps_reachable_downloaded hr hd hs
  exact ⟨hd', fun hw => (wf_reachable hr').2 i hw hd'⟩

/-- Witness for C2: "yt:a" is recovered at boot, its task finishes and is
reaped into `downloaded`; a following dispatch pass whose probe reports the
same video as live does not re-activate it. -/
theorem c2_witness :
    Id.yt "a" ∈ (dispatch
        (fun _ => some ⟨"a", "t", true, false, "u", "up"⟩) (fun _ => false)
        (fun _ => (⟨false, false⟩ : TaskHandle))
        (reap (boot [] (fun _ => (⟨true, true⟩ : TaskHandle)) ["yt:a"]).1).1).1.downloaded ∧
      Id.yt "a" ∉ keysW (dispatch
        (fun _ => some ⟨"a", "t", true, false, "u", "up"⟩) (fun _ => false)
        (fun _ => (⟨false, false⟩ : TaskHandle))
        (reap (boot [] (fun _ => (⟨true, true⟩ : TaskHandle)) ["yt:a"]).1).1).1.watching :=
  c2_terminal_never_reactivated
    (Reachable.reap (Reachable.boot _ _ _)) (by decide)
    (Steps.tail (Steps.refl _) (Step.dispatch _ _ _ _))

/-- Claim C3: a reap pass removes every finished task from `watching`, joins
its result, and inserts the Id into `downloaded` regardless of whether the
joined result was success or failure; the outcome is reported exactly once
(`reports` carries exactly one entry for the Id, tagged with the join
result). -/
theorem c3_reap_terminalizes {s : InnerSub} {i : Id} {h : TaskHandle}
    (hwf : WF s) (hmem : (i, h) ∈ s.watching) (hfin : h.finished = true) :
    i ∉ keysW (reap s).1.watching ∧ i ∈ (reap s).1.downloaded ∧
      (reap s).2.filter (fun p => p.1 = i) = [(i, h.ok)] :=
  reap_finished_spec hwf hmem hfin

/-- Witness for C3 on a registry holding one finished FAILED task: the Id is
still terminalized and the failure is reported once. -/
theorem c3_witness :
    Id.yt "a" ∉ keysW (reap ⟨[], [(Id.yt "a", ⟨true, false⟩)], []⟩).1.watching ∧
      Id.yt "a" ∈ (reap ⟨[], [(Id.yt "a", ⟨true, false⟩)], []⟩).1.downloaded ∧
      (reap ⟨[], [(Id.yt "a", ⟨true, false⟩)], []⟩).2.filter
        (fun p => p.1 = Id.yt "a") = [(Id.yt "a", false)] :=
  @c3_reap_terminalizes ⟨[], [(Id.yt "a", ⟨true, false⟩)], []⟩ (Id.yt "a")
    ⟨true, false⟩ (by decide) (by decide) rfl

/-- Counterexample for C4: in the cycle trace for a registry subscribed to
one YouTube channel, the liveness-probe event occurs with the registry lock
HELD (flag true), and never with the lock released — refuting the claim that
the probe is issued while the lock is not held. -/
theorem c4_counterexample :
    (Event.probeYt "c", true) ∈ lockFlags false
        (cycle (fun _ => none) (fun _ => false) (fun _ => (⟨false, false⟩ : TaskHandle))
          ⟨[Id.yt "c"], [], []⟩).2.2 ∧
      (Event.probeYt "c", false) ∉ lockFlags false
        (cycle (fun _ => none) (fun _ => false) (fun _ => (⟨false, false⟩ : TaskHandle))
          ⟨[Id.yt "c"], [], []⟩).2.2 := by
  decide

/-- Claim C4 (amended): in every cycle trace, no liveness probe is ever
issued with the registry lock released, and no idle sleep ever happens with
the lock held: the whole reap-plus-dispatch body runs inside one critical
section and only the sleep phase runs unlocked. -/
theorem c4_probe_under_lock (probe : String → Option YtLiveInfo)
    (twitchLive : String → Bool) (sp : Id → TaskHandle) (s : InnerSub) :
    (lockFlags false (cycle probe twitchLive sp s).2.2).filter
        (fun p => p.1.isProbe && !p.2) = [] ∧
      (lockFlags false (cycle probe twitchLive sp s).2.2).filter
        (fun p => (p.1 == Event.sleep) && p.2) = [] := by
  constructor
  · rw [List.filter_eq_nil_iff]
    intro p hp
    have h := locked_probe_cycle probe twitchLive sp s p hp
    simp only [Bool.and_eq_true, Bool.not_eq_true', not_and]
    intro hprobe
    rw [h.1 hprobe]
    simp
  · rw [List.filter_eq_nil_iff]
    intro p hp
    have h := locked_probe_cycle probe twitchLive sp s p hp
    simp only [Bool.and_eq_true, beq_iff_eq, not_and]
    intro hsleep
    rw [h.2 hsleep]
    simp

/-- Claim C5: starting from distinct leftover staging-directory names, boot
recovery puts into `watching` exactly one entry per parseable Id encoding
(in reverse scan order), with no duplicates, skipping unparseable names
without error, and emits no liveness-probe event. -/
theorem c5_boot_recovery (ids0 : List Id) (sp : Id → TaskHandle)
    (entries : List String) (hnd : entries.Nodup) :
    keysW (boot ids0 sp entries).1.watching =
        (entries.filterMap Id.fromStr).reverse ∧
      (keysW (boot ids0 sp entries).1.watching).Nodup ∧
      (keysW (boot ids0 sp entries).1.watching).length =
        (entries.filterMap Id.fromStr).length ∧
      ((boot ids0 sp entries).2).all (fun e => !e.isProbe) = true := by
  have hkeys : keysW (boot ids0 sp entries).1.watching =
      (entries.filterMap Id.fromStr).reverse := by
    have h := @boot_fold_keys sp entries (⟨ids0, [], []⟩, [])
      hnd (by intro e he i hfe hc; cases hc)
    simpa [boot, keysW] using h
  refine ⟨hkeys, ?_, ?_, ?_⟩
  · exact (wf_boot ids0 sp entries).1
  · rw [hkeys, List.length_reverse]
  · rw [List.all_eq_true]
    intro e he
    have := boot_fold_events entries (⟨ids0, [], []⟩, [])
      (by intro x hx; cases hx) e he
    simp [this]

/-- Witness for C5 with two parseable names and one bogus name: exactly the
two parseable Ids are recovered. -/
theorem c5_witness :
    keysW (boot [] (fun _ => (⟨false, false⟩ : TaskHandle))
        ["yt:a", "bogus", "twitch:b"]).1.watching =
        ((["yt:a", "bogus", "twitch:b"].filterMap Id.fromStr)).reverse ∧
      (keysW (boot [] (fun _ => (⟨false, false⟩ : TaskHandle))
        ["yt:a", "bogus", "twitch:b"]).1.watching).Nodup ∧
      (keysW (boot [] (fun _ => (⟨false, false⟩ : TaskHandle))
        ["yt:a", "bogus", "twitch:b"]).1.watching).length =
        ((["yt:a", "bogus", "twitch:b"].filterMap Id.fromStr)).length ∧
      ((boot [] (fun _ => (⟨false, false⟩ : TaskHandle))
        ["yt:a", "bogus", "twitch:b"]).2).all (fun e => !e.isProbe) = true :=
  c5_boot_recovery [] _ _ (by decide)

/-- Counterexample for C7: when the staging file and the final file both
already exist, the task still performs ONE subprocess invocation (the
filename-resolution probe runs before any existence check), refuting the
zero-invocations claim; the task does succeed. -/
theorem c7_counterexample :
    Viewer.default.dl
        { currentDirOk := true, resolve := CmdOut.out "video.mp4",
          finalExists := Except.ok true, stagingExists := true,
          renameStagingOk := true, removeStagingOk := true, dlDirExists := false,
          removePreOk := true, createDirOk := true, downloadLaunchOk := true,
          renameAfterOk := true, removeAfterOk := true } =
      (Except.ok (), [DlEvent.invokeResolve]) ∧
      [DlEvent.invokeResolve] ≠ ([] : List DlEvent) :=
  ⟨rfl, by decide⟩

/-- Claim C7 (amended): when the final output file already exists (in
particular when the staging file also exists), the task performs exactly one
executor invocation — the filename resolution — performs no download
invocation, and reports success. -/
theorem c7_reconcile_single_probe (v : Viewer) (env : DlEnv) (raw : String)
    (hcd : env.currentDirOk = true) (hres : env.resolve = CmdOut.out raw)
    (hne : strTrim raw ≠ "") (hfin : env.finalExists = Except.ok true)
    (_hstg : env.stagingExists = true) :
    v.dl env = (Except.ok (), [DlEvent.invokeResolve]) := by
  unfold Viewer.dl
  rw [if_neg (by simp [hcd]), hres]
  dsimp only
  rw [if_neg (by simpa using hne), hfin]

/-- Witness for C7 (amended) at a concrete environment where both files
exist. -/
theorem c7_witness :
    Viewer.default.dl
        { currentDirOk := true, resolve := CmdOut.out "video.mp4",
          finalExists := Except.ok true, stagingExists := true,
          renameStagingOk := true, removeStagingOk := true, dlDirExists := false,
          removePreOk := true, createDirOk := true, downloadLaunchOk := true,
          renameAfterOk := true, removeAfterOk := true } =
      (Except.ok (), [DlEvent.invokeResolve]) :=
  c7_reconcile_single_probe Viewer.default _ "video.mp4" rfl rfl (by decide) rfl rfl

/-- Counterexample for C8: if the filename-resolution subprocess fails to
LAUNCH, the task returns success (with no resolved filename at all),
refuting the claim that any subprocess failure in name resolution is a hard
error. -/
theorem c8_counterexample :
    Viewer.default.dl
        { currentDirOk := true, resolve := CmdOut.launchErr,
          finalExists := Except.ok false, stagingExists := false,
          renameStagingOk := true, removeStagingOk := true, dlDirExists := false,
          removePreOk := true, createDirOk := true, downloadLaunchOk := true,
          renameAfterOk := true, removeAfterOk := true } =
      (Except.ok (), [DlEvent.invokeResolve]) := rfl

/-- Claim C8 (amended): if the filename subprocess launches, then output that
is undecodable (invalid UTF-8) or empty after trimming is a hard task error;
only a failure to launch the subprocess is (surprisingly) swallowed as
success. -/
theorem c8_resolve_hard_error (v : Viewer) (env : DlEnv)
    (hcd : env.currentDirOk = true)
    (hbad : env.resolve = CmdOut.invalidUtf8 ∨
      ∃ raw, env.resolve = CmdOut.out raw ∧ strTrim raw = "") :
    isErr (v.dl env).1 = true := by
  unfold Viewer.dl
  rw [if_neg (by simp [hcd])]
  rcases hbad with h | ⟨raw, h, htrim⟩
  · rw [h]
    rfl
  · rw [h]
    dsimp only
    rw [if_pos htrim]
    rfl

/-- Witness for C8 (amended) at a concrete environment with undecodable
output. -/
theorem c8_witness :
    isErr (Viewer.default.dl
        { currentDirOk := true, resolve := CmdOut.invalidUtf8,
          finalExists := Except.ok false, stagingExists := false,
          renameStagingOk := true, removeStagingOk := true, dlDirExists := false,
          removePreOk := true, createDirOk := true, downloadLaunchOk := true,
          renameAfterOk := true, removeAfterOk := true }).1 = true :=
  c8_resolve_hard_error Viewer.default _ rfl (Or.inl rfl)

/-- Claim C9: for a YouTube subscription, the dispatch pass inserts into
`watching` the Id built from the video id returned by the probe (info.id),
not the subscribed channel Id: when the probe answers with a live video
whose id differs from the channel key, the new key set is exactly the video
Id consed onto the old one, `downloaded` is untouched, the channel Id is in
`watching` afterwards only if it already was, and the emitted events are the
probe of the channel followed by the spawn of the VIDEO Id. -/
theorem c9_video_id_watched {probe : String → Option YtLiveInfo}
    {twitchLive : String → Bool} {sp : Id → TaskHandle} {s : InnerSub}
    {c : String} {info : YtLiveInfo}
    (hp : probe c = some info) (hl : info.is_live = true)
    (hw : Id.yt info.id ∉ keysW s.watching) (hd : Id.yt info.id ∉ s.downloaded)
    (hne : info.id ≠ c) :
    keysW (dispatchOne probe twitchLive sp s (Id.yt c)).1.watching =
        Id.yt info.id :: keysW s.watching ∧
      (dispatchOne probe twitchLive sp s (Id.yt c)).1.downloaded = s.downloaded ∧
      (Id.yt c ∈ keysW (dispatchOne probe twitchLive sp s (Id.yt c)).1.watching ↔
        Id.yt c ∈ keysW s.watching) ∧
      (dispatchOne probe twitchLive sp s (Id.yt c)).2 =
        [Event.probeYt c, Event.spawnTask (Id.yt info.id)] := by
  have hred : dispatchOne probe twitchLive sp s (Id.yt c) =
      ({ s with watching := insertW (Id.yt info.id) (sp (Id.yt info.id)) s.watching },
        [Event.probeYt c, Event.spawnTask (Id.yt info.id)]) := by
    unfold dispatchOne
    dsimp only
    rw [hp]
    dsimp only
    rw [if_pos ⟨hl, hw, hd⟩]
  rw [hred]
  have hkeys : keysW (insertW (Id.yt info.id) (sp (Id.yt info.id)) s.watching) =
      Id.yt info.id :: keysW s.watching := by
    rw [insertW_fresh hw]
    rfl
  refine ⟨hkeys, rfl, ?_, rfl⟩
  show Id.yt c ∈ keysW (insertW (Id.yt info.id) (sp (Id.yt info.id)) s.watching) ↔ _
  rw [hkeys]
  constructor
  · intro hmem
    rcases List.mem_cons.1 hmem with he | hmem2
    · exact absurd (Id.yt.inj he).symm hne
    · exact hmem2
  · exact List.mem_cons_of_mem _

/-- Witness for C9: channel "c" is probed, video "v" is live, and it is the
video Id that is inserted. -/
theorem c9_witness :
    keysW (dispatchOne (fun _ => some ⟨"v", "t", true, false, "u", "up"⟩)
        (fun _ => false) (fun _ => (⟨false, false⟩ : TaskHandle))
        ⟨[Id.yt "c"], [], []⟩ (Id.yt "c")).1.watching =
        Id.yt "v" :: keysW ([] : List (Id × TaskHandle)) ∧
      (dispatchOne (fun _ => some ⟨"v", "t", true, false, "u", "up"⟩)
        (fun _ => false) (fun _ => (⟨false, false⟩ : TaskHandle))
        ⟨[Id.yt "c"], [], []⟩ (Id.yt "c")).1.downloaded = [] ∧
      (Id.yt "c" ∈ keysW (dispatchOne (fun _ => some ⟨"v", "t", true, false, "u", "up"⟩)
        (fun _ => false) (fun _ => (⟨false, false⟩ : TaskHandle))
        ⟨[Id.yt "c"], [], []⟩ (Id.yt "c")).1.watching ↔
        Id.yt "c" ∈ keysW ([] : List (Id × TaskHandle))) ∧
      (dispatchOne (fun _ => some ⟨"v", "t", true, false, "u", "up"⟩)
        (fun _ => false) (fun _ => (⟨false, false⟩ : TaskHandle))
        ⟨[Id.yt "c"], [], []⟩ (Id.yt "c")).2 =
        [Event.probeYt "c", Event.spawnTask (Id.yt "v")] :=
  @c9_video_id_watched (fun _ => some ⟨"v", "t", true, false, "u", "up"⟩)
    (fun _ => false) (fun _ => (⟨false, false⟩ : TaskHandle))
    ⟨[Id.yt "c"], [], []⟩ "c" ⟨"v", "t", true, false, "u", "up"⟩
    rfl rfl (by decide) (by decide) (by decide)

/-- Claim C10: if accepting, reading, or writing on the control channel
fails, the serve loop stops at that connection — it answers exactly the
earlier well-behaved connections, returns the I/O error, and serves nothing
afterwards (the result does not depend on the remaining queued connections);
meanwhile the supervisory tick of the daemon, which only watches the
subscriber thread and the exit flag, keeps running. -/
theorem c10_ipc_error_stops_serving (inner : InnerSub) (good : List Conn)
    (bad : Conn) (rest : List Conn)
    (hg : ∀ c ∈ good, c.acceptOk = true ∧ c.readOk = true ∧ c.writeOk = true)
    (hb : bad.acceptOk = false ∨ bad.readOk = false ∨ bad.writeOk = false) :
    (ipcSpawn inner (good ++ bad :: rest)).1.length = good.length ∧
      (ipcSpawn inner (good ++ bad :: rest)).2.isSome = true ∧
      ipcSpawn inner (good ++ bad :: rest) = ipcSpawn inner (good ++ [bad]) ∧
      superviseTick false false = none := by
  obtain ⟨h1, h2, h3⟩ := ipcSpawn_halt good bad rest hg hb
  obtain ⟨er, her⟩ := h2
  exact ⟨h1, by rw [her]; rfl, h3, rfl⟩

/-- Witness for C10 with one good connection, one failing read, and one
queued connection that is never served. -/
theorem c10_witness :
    (ipcSpawn ⟨[], [], []⟩
        ([⟨true, true, some IpcRequest.getWatching, true⟩] ++
          ⟨true, false, none, true⟩ :: [⟨true, true, none, true⟩])).1.length = 1 ∧
      (ipcSpawn ⟨[], [], []⟩
        ([⟨true, true, some IpcRequest.getWatching, true⟩] ++
          ⟨true, false, none, true⟩ :: [⟨true, true, none, true⟩])).2.isSome = true ∧
      ipcSpawn ⟨[], [], []⟩
        ([⟨true, true, some IpcRequest.getWatching, true⟩] ++
          ⟨true, false, none, true⟩ :: [⟨true, true, none, true⟩]) =
        ipcSpawn ⟨[], [], []⟩
          ([⟨true, true, some IpcRequest.getWatching, true⟩] ++ [⟨true, false, none, true⟩]) ∧
      superviseTick false false = none :=
  c10_ipc_error_stops_serving ⟨[], [], []⟩ _ _ _ (by decide) (by decide)

end Vdl
